import Mathlib

/-!
Verification of the indicator / signal / backtest / valuation core of the
stock-ai-dashboard application (src/app.py) against its specification.

The embedding models the pandas dataframe columns as Lean lists:
a raw OHLCV row is a `Bar`; a derived column whose entries can be NaN
(rolling windows during warm-up) is a `List (Option ℚ)` with `none` for NaN,
and pandas' convention that every comparison against NaN is `False` is
captured by the `nanLt`/`nanLe`/`nanGt`/`nanGe` helpers.  Columns that are
never NaN for NaN-free input (the `ewm(adjust=False)` family, OBV) are plain
`List ℚ`.  Real arithmetic is modelled exactly by `ℚ`; a separate exact
model of IEEE-754 binary64 rounding (`fl`, `roundAt`) is provided for the
one claim whose boundary behaviour depends on float rounding.
A Python expression that raises (out-of-range `iloc`) is modelled by an
`Option` result being `none`.
-/

namespace StockApp

/-- One raw OHLCV row of the downloaded price history (one trading day).
`date` is an abstract day identifier (the dataframe index). `opn` is the
`Open` column (`open` is a Lean keyword). -/
structure Bar where
  date : ℕ
  opn : ℚ
  high : ℚ
  low : ℚ
  close : ℚ
  volume : ℚ

/-- Element lookup in a column with NaN entries: `xs[i]` as an optional
value, where out of range is also `none`. -/
def idx (xs : List (Option ℚ)) (i : ℕ) : Option ℚ :=
  (xs[i]?).join

/-- pandas `a < b` where either side may be NaN: NaN comparisons are False. -/
def nanLt : Option ℚ → Option ℚ → Bool
  | some a, some b => decide (a < b)
  | _, _ => false

/-- pandas `a <= b` with NaN-is-False semantics. -/
def nanLe : Option ℚ → Option ℚ → Bool
  | some a, some b => decide (a ≤ b)
  | _, _ => false

/-- pandas `a > b` with NaN-is-False semantics. -/
def nanGt : Option ℚ → Option ℚ → Bool
  | some a, some b => decide (b < a)
  | _, _ => false

/-- pandas `a >= b` with NaN-is-False semantics. -/
def nanGe : Option ℚ → Option ℚ → Bool
  | some a, some b => decide (b ≤ a)
  | _, _ => false

/-- pandas `Series.rolling(window=w).mean()`: at index `i` the mean of the
`w` trailing values `xs[i-w+1..i]`, NaN (`none`) while fewer than `w`
values exist (`min_periods` defaults to the window size). -/
def rollingMean (w : ℕ) (xs : List ℚ) : List (Option ℚ) :=
  (List.range xs.length).map fun i =>
    if w ≤ i + 1 then some ((((xs.take (i + 1)).drop (i + 1 - w)).sum) / w) else none

/-- Sample variance (`ddof = 1`, the pandas default) of a list of values. -/
def sampleVar (ys : List ℚ) : ℚ :=
  let n : ℚ := ys.length
  let m : ℚ := ys.sum / n
  ((ys.map fun y => (y - m) ^ 2).sum) / (n - 1)

/-- pandas `Series.rolling(window=w).std()`.  The square root of the sample
variance is irrational in general; `Rat.sqrt` stands in for it.  No claim
depends on the numeric value of this column, only on which entries are NaN,
and the NaN pattern (`none` before index `w-1`) is exact. -/
def rollingStd (w : ℕ) (xs : List ℚ) : List (Option ℚ) :=
  (List.range xs.length).map fun i =>
    if w ≤ i + 1 then some (Rat.sqrt (sampleVar ((xs.take (i + 1)).drop (i + 1 - w)))) else none

/-- Pointwise combination of two NaN-able columns; NaN propagates. -/
def nanZip (f : ℚ → ℚ → ℚ) : Option ℚ → Option ℚ → Option ℚ
  | some a, some b => some (f a b)
  | _, _ => none

/-- Tail of the `ewm(adjust=False).mean()` recursion: `a` is the smoothing
factor, `prev` the previous EMA value. -/
def ewmGo (a : ℚ) (prev : ℚ) : List ℚ → List ℚ
  | [] => []
  | y :: ys =>
    let e := y * a + prev * (1 - a)
    e :: ewmGo a e ys

/-- pandas `Series.ewm(span=s, adjust=False).mean()`: seed is the first
value, smoothing factor `2/(s+1)`, `ema[i] = x[i]*a + ema[i-1]*(1-a)`. -/
def ewmMean (span : ℕ) (xs : List ℚ) : List ℚ :=
  match xs with
  | [] => []
  | x :: rest => x :: ewmGo (2 / ((span : ℚ) + 1)) x rest

/-- Tail of the OBV cumulative sum: `(np.sign(close.diff()) * volume)`
accumulated, walking the remaining closes and volumes in step. -/
def obvGo (prevClose acc : ℚ) : List ℚ → List ℚ → List ℚ
  | c :: cs, v :: vs =>
    let d : ℚ := if prevClose < c then v else if c < prevClose then -v else 0
    (acc + d) :: obvGo c (acc + d) cs vs
  | _, _ => []

/-- `(np.sign(data['Close'].diff()) * data['Volume']).fillna(0).cumsum()`:
the first diff is NaN, so after `fillna(0)` the running sum starts at 0. -/
def obvList : List ℚ → List ℚ → List ℚ
  | c :: cs, _ :: vs => 0 :: obvGo c 0 cs vs
  | _, _ => []

/-- pandas `Series.pct_change()`: NaN at index 0, else `x[i]/x[i-1] - 1`. -/
def pctChange (xs : List ℚ) : List (Option ℚ) :=
  (List.range xs.length).map fun i =>
    match i, xs[i]?, xs[i - 1]? with
    | _ + 1, some a, some b => some (a / b - 1)
    | _, _, _ => none

/-- The IndicatorSeries: the raw bars together with every derived column
computed by `load_data` (src/app.py lines 180-192).  Columns that can hold
NaN are `List (Option ℚ)`. The VaR quantile returned alongside the frame is
not modelled: no claim mentions it. -/
structure DF where
  bars : List Bar
  MA5 : List (Option ℚ)
  MA20 : List (Option ℚ)
  STD20 : List (Option ℚ)
  BB_Upper : List (Option ℚ)
  BB_Lower : List (Option ℚ)
  DIF : List ℚ
  DEA : List ℚ
  MACD_Hist : List ℚ
  OBV : List ℚ
  OBV_MA : List (Option ℚ)
  Returns : List (Option ℚ)

/-- The indicator engine, from `load_data` (src/app.py lines 180-192):
MA5/MA20/STD20 rolling windows, Bollinger bands, the 12/26 EMA pair with
`DIF`, the 9-span EMA `DEA` of `DIF`, the MACD histogram, OBV with its
20-day mean, and daily returns.  An empty download yields an empty frame. -/
def load_data (bars : List Bar) : DF :=
  let closes := bars.map Bar.close
  let volumes := bars.map Bar.volume
  let ma20 := rollingMean 20 closes
  let std20 := rollingStd 20 closes
  let exp12 := ewmMean 12 closes
  let exp26 := ewmMean 26 closes
  let dif := List.zipWith (· - ·) exp12 exp26
  let dea := ewmMean 9 dif
  let obv := obvList closes volumes
  { bars := bars
    MA5 := rollingMean 5 closes
    MA20 := ma20
    STD20 := std20
    BB_Upper := List.zipWith (nanZip fun m s => m + 2 * s) ma20 std20
    BB_Lower := List.zipWith (nanZip fun m s => m - 2 * s) ma20 std20
    DIF := dif
    DEA := dea
    MACD_Hist := List.zipWith (· - ·) dif dea
    OBV := obv
    OBV_MA := rollingMean 20 obv
    Returns := pctChange closes }

/-! ## Backtest engine (`run_backtest`, src/app.py lines 95-127) -/

/-- pandas `shift(1)` read of a NaN-able column at index `i`: NaN at the
first row, else the value at `i-1`. -/
def shiftIdx (xs : List (Option ℚ)) (i : ℕ) : Option ℚ :=
  if i = 0 then none else idx xs (i - 1)

/-- The `Signal` column of `run_backtest` (lines 97-99): `1` on a golden
cross (`MA5 > MA20` and `MA5.shift(1) <= MA20.shift(1)`), `-1` on a death
cross, else `0`.  All four comparisons are NaN-is-False. -/
def signalAt (df : DF) (i : ℕ) : ℤ :=
  if nanGt (idx df.MA5 i) (idx df.MA20 i) && nanLe (shiftIdx df.MA5 i) (shiftIdx df.MA20 i) then 1
  else if nanLt (idx df.MA5 i) (idx df.MA20 i) && nanGe (shiftIdx df.MA5 i) (shiftIdx df.MA20 i) then -1
  else 0

/-- A trade-log entry appended by `run_backtest`. -/
inductive Side
  | Buy
  | Sell
deriving DecidableEq

/-- One row of the trade log: `{'Date': date, 'Type': side, 'Price': price,
'Shares': shares}`. -/
structure Trade where
  date : ℕ
  side : Side
  price : ℚ
  shares : ℤ

/-- The mutable loop state of `run_backtest`: `cash`, `position`,
`trade_log`, `equity_curve`. -/
structure BTState where
  cash : ℚ
  position : ℤ
  trade_log : List Trade
  equity_curve : List ℚ

/-- One iteration of the `for i in range(len(df))` loop (lines 106-122).
On a buy signal while flat, `position = int(cash // price)` (float floor
division) and the Buy trade is appended unconditionally; on a sell signal
while long, the position is liquidated; every bar appends
`cash + position*price` to the equity curve. -/
def bt_step (s : BTState) (row : ℕ × ℚ × ℤ) : BTState :=
  let date := row.1
  let price := row.2.1
  let signal := row.2.2
  let s1 : BTState :=
    if signal = 1 ∧ s.position = 0 then
      let pos : ℤ := ⌊s.cash / price⌋
      { cash := s.cash - pos * price
        position := pos
        trade_log := s.trade_log ++ [⟨date, Side.Buy, price, pos⟩]
        equity_curve := s.equity_curve }
    else if signal = -1 ∧ 0 < s.position then
      { cash := s.cash + s.position * price
        position := 0
        trade_log := s.trade_log ++ [⟨date, Side.Sell, price, s.position⟩]
        equity_curve := s.equity_curve }
    else s
  { s1 with equity_curve := s1.equity_curve ++ [s1.cash + s1.position * price] }

/-- The per-bar inputs of the loop, in order: `(date, close, signal)`. -/
def bt_rows (df : DF) : List (ℕ × ℚ × ℤ) :=
  df.bars.enum.map fun p => (p.2.date, p.2.close, signalAt df p.1)

/-- The result of `run_backtest`: the (copied) input frame, the added
`Signal` and `Equity` columns, the total return and the trade log.
`total_return` is `none` for an empty frame, where `df['Equity'].iloc[-1]`
would raise. -/
structure BTResult where
  df : DF
  signal : List ℤ
  equity : List ℚ
  total_return : Option ℚ
  trades : List Trade

/-- `run_backtest(df, initial_capital)` (lines 95-127).  The input frame is
copied (`df = df.copy()`, line 96) and never written back, which the
embedding renders by returning the input `df` unchanged next to the new
columns. -/
def run_backtest (df : DF) (initial_capital : ℚ) : BTResult :=
  let fin := (bt_rows df).foldl bt_step ⟨initial_capital, 0, [], []⟩
  { df := df
    signal := (List.range df.bars.length).map (signalAt df)
    equity := fin.equity_curve
    total_return :=
      fin.equity_curve.getLast?.map fun e => (e - initial_capital) / initial_capital * 100
    trades := fin.trade_log }

/-! ## Signal generator (`generate_signals`, src/app.py lines 211-262) -/

/-- The four Fibonacci position zones of the report (lines 231-242); the
advisory strings attached to each zone are constant per zone and are not
modelled beyond the zone itself. -/
inductive FibZone
  | danger
  | elevated
  | accumulation
  | neutral
deriving DecidableEq

/-- The three MACD momentum messages (lines 253-256). -/
inductive MacdState
  | strengthening
  | weakening
  | contested
deriving DecidableEq

/-- The dictionary returned by `generate_signals`: the wash-sale flag with
the key candle's date and low that the alert message reports, and the four
labelled sub-signals. -/
structure SignalReport where
  wash_detected : Bool
  wash_key_date : Option ℕ
  wash_key_low : Option ℚ
  position : FibZone
  bollinger_hot : Bool
  obv_inflow : Bool
  macd : MacdState

/-- The `if/elif/elif/else` chain classifying `last_close` against the
three Fibonacci levels (lines 231-242), with the levels as already-computed
values. -/
def fib_classify (last_close q786 q618 q236 : ℚ) : FibZone :=
  if q786 ≤ last_close then FibZone.danger
  else if q618 < last_close then FibZone.elevated
  else if last_close < q236 then FibZone.accumulation
  else FibZone.neutral

/-- `recent_df = df.iloc[-20:-1]` (line 216): rows `max(N-20,0) .. N-2`. -/
def wash_slice (bars : List Bar) : List Bar :=
  (bars.take (bars.length - 1)).drop (bars.length - 20)

/-- `avg_vol_20 = df['Volume'].rolling(window=20).mean().iloc[-1]`
(line 217): NaN for fewer than 20 rows, and a raise (never reached: the
caller has already indexed `iloc[-1]`) for an empty frame. -/
def avg_vol_20 (bars : List Bar) : Option ℚ :=
  ((rollingMean 20 (bars.map Bar.volume)).getLast?).join

/-- The candidate predicate of line 218: `Close > Open * 1.03` and
`Volume > avg_vol_20 * 1.5` (the right side NaN when fewer than 20 rows
exist, in which case the comparison is False). -/
def bullish_pred (bars : List Bar) (b : Bar) : Bool :=
  decide (b.opn * 1.03 < b.close) && nanGt (some b.volume) ((avg_vol_20 bars).map (· * 1.5))

/-- The `bullish_candles` filter (line 218) over `recent_df`. -/
def bullish_filter (bars : List Bar) : List Bar :=
  (wash_slice bars).filter (bullish_pred bars)

/-- `key_candle = bullish_candles.iloc[-1]` (line 220): the most recent
qualifying candle, if any. -/
def key_candle (bars : List Bar) : Option Bar :=
  (bullish_filter bars).getLast?

/-- The wash-sale decision (lines 219-225): a key candle exists, the last
close holds at or above its low, and the last volume has shrunk below 60%
of its volume. -/
def wash_detected (bars : List Bar) : Bool :=
  match key_candle bars, bars.getLast? with
  | some k, some lastB => decide (k.low ≤ lastB.close) && decide (lastB.volume < k.volume * 0.6)
  | _, _ => false

/-- `generate_signals(df, high, low)` (lines 211-262).  `none` models the
`IndexError` that `df['Close'].iloc[-1]` raises on an empty frame and that
`df['MACD_Hist'].iloc[-2]` raises on a one-row frame; on two or more rows
all five sub-signals are produced together. -/
def generate_signals (df : DF) (high low : ℚ) : Option SignalReport :=
  match df.bars.getLast?, df.MACD_Hist.getLast?, df.MACD_Hist.dropLast.getLast? with
  | some lastB, some hist, some prev_hist =>
    let last_close := lastB.close
    let key := key_candle df.bars
    let det := wash_detected df.bars
    let diff := high - low
    some
      { wash_detected := det
        wash_key_date := if det then key.map Bar.date else none
        wash_key_low := if det then key.map Bar.low else none
        position :=
          fib_classify last_close (low + diff * 0.786) (low + diff * 0.618) (low + diff * 0.236)
        bollinger_hot := nanGt (some last_close) (df.BB_Upper.getLast?.join)
        obv_inflow := nanGt df.OBV.getLast? (df.OBV_MA.getLast?.join)
        macd :=
          if 0 < hist ∧ prev_hist < hist then MacdState.strengthening
          else if 0 < hist ∧ hist < prev_hist then MacdState.weakening
          else MacdState.contested }
  | _, _, _ => none

/-! ## Portfolio valuation (tab4 block, src/app.py lines 380-395) -/

/-- A float value as pandas handles it in the valuation columns: a real
number (modelled exactly by `ℚ`), or one of the specials NaN, `inf`,
`-inf` that float division by zero produces. -/
inductive PdF
  | val (q : ℚ)
  | nan
  | inf
  | ninf
deriving DecidableEq

/-- Float division as numpy/pandas perform it elementwise: `0/0` is NaN and
`x/0` for `x ≠ 0` is a signed infinity — never an exception. -/
def pdDiv (a b : ℚ) : PdF :=
  if b = 0 then (if a = 0 then PdF.nan else if 0 < a then PdF.inf else PdF.ninf)
  else PdF.val (a / b)

/-- Multiplication of the division result by the literal `100`: the
specials absorb it. -/
def pdMul100 : PdF → PdF
  | PdF.val q => PdF.val (q * 100)
  | PdF.nan => PdF.nan
  | PdF.inf => PdF.inf
  | PdF.ninf => PdF.ninf

/-- `Series.fillna(0)`: replaces NaN and nothing else — infinities pass
through untouched. -/
def fillna0 : PdF → PdF
  | PdF.nan => PdF.val 0
  | x => x

/-- One row of the holdings sheet: `買入均價` (average buy price) and
`持有股數` (shares held). -/
structure Holding where
  avgCost : ℚ
  shares : ℚ

/-- The per-row valuation columns computed in tab4 (lines 385-389):
`現價` (live price), `市值` (market value), `成本` (cost basis), `損益`
(profit and loss), `報酬率%` (return percentage). -/
structure ValuedHolding where
  livePrice : ℚ
  marketValue : ℚ
  costBasis : ℚ
  profitLoss : ℚ
  returnPct : PdF

/-- The valuation of one holding (lines 385-389):
`現價 = 代號.map(live_prices).fillna(0)`, `市值 = 現價*股數`,
`成本 = 均價*股數`, `損益 = 市值-成本`,
`報酬率% = ((損益/成本)*100).fillna(0)`. -/
def value_holding (live : Option ℚ) (h : Holding) : ValuedHolding :=
  let price := live.getD 0
  let mv := price * h.shares
  let cb := h.avgCost * h.shares
  let pl := mv - cb
  { livePrice := price
    marketValue := mv
    costBasis := cb
    profitLoss := pl
    returnPct := fillna0 (pdMul100 (pdDiv pl cb)) }

/-! ## Exact model of IEEE-754 binary64 rounding

The application computes in numpy float64.  The `ℚ` embedding above
idealises that as exact real arithmetic, which is value-faithful except at
representability boundaries.  One claim's scenario sits exactly on such a
boundary, so the rounding step of binary64 (round to nearest, ties to even,
for arguments in the normal range) is modelled exactly here: `fl q` is the
rational value of the double nearest to `q`. -/

/-- Round `q` to the grid of multiples of `2^(e-52)` — the mantissa grid of
the binade `[2^e, 2^(e+1))` — to nearest, ties to even. -/
def roundAt (e : ℤ) (q : ℚ) : ℚ :=
  let scaled := q * (2 : ℚ) ^ (52 - e)
  let m0 : ℤ := ⌊scaled⌋
  let fr := scaled - (m0 : ℚ)
  let m : ℤ :=
    if 1 / 2 < fr then m0 + 1
    else if fr < 1 / 2 then m0
    else if m0 % 2 = 0 then m0 else m0 + 1
  (m : ℚ) * (2 : ℚ) ^ (e - 52)

/-- Binary64 rounding of a positive rational: locate the binade exponent
`e` with `2^e ≤ q < 2^(e+1)` (starting from the integer log estimate of the
numerator and denominator) and round within it. -/
def flPos (q : ℚ) : ℚ :=
  let a : ℤ := (Nat.log2 q.num.toNat : ℤ) - (Nat.log2 q.den : ℤ)
  let e : ℤ :=
    if (2 : ℚ) ^ (a + 1) ≤ q then a + 1 else if (2 : ℚ) ^ a ≤ q then a else a - 1
  roundAt e q

/-- Binary64 rounding of a rational in the (sign-symmetric) normal range. -/
def fl (q : ℚ) : ℚ :=
  if q = 0 then 0 else if 0 < q then flPos q else -flPos (-q)

/-- The Fibonacci zone classification as the program actually computes it,
in binary64: inputs are parsed doubles and every arithmetic step of
`fib_levels = [low + diff*0.786, low + diff*0.618, low + diff*0.236]`
(lines 228-229) rounds. -/
def fibZone64 (low high close : ℚ) : FibZone :=
  let lo := fl low
  let hi := fl high
  let c := fl close
  let diff := fl (hi - lo)
  fib_classify c (fl (lo + fl (diff * fl 0.786))) (fl (lo + fl (diff * fl 0.618)))
    (fl (lo + fl (diff * fl 0.236)))

/-! ## Concrete inputs used by witnesses and counterexamples -/

/-- A two-bar IndicatorSeries given directly to the backtest engine: the
moving-average columns are chosen so that a golden cross fires at bar 1. -/
def exDF : DF where
  bars := [⟨0, 5, 5, 5, 5, 100⟩, ⟨1, 28, 28, 28, 28, 100⟩]
  MA5 := [some 1, some 3]
  MA20 := [some 2, some 2]
  STD20 := [none, none]
  BB_Upper := [none, none]
  BB_Lower := [none, none]
  DIF := [0, 0]
  DEA := [0, 0]
  MACD_Hist := [0, 0]
  OBV := [0, 0]
  OBV_MA := [none, none]
  Returns := [none, none]

/-- A single raw bar, for the warm-up claims. -/
def exBar1 : Bar := ⟨0, 10, 10, 10, 10, 100⟩

/-- Twenty-one identical bars, enough for every 20-bar warm-up window. -/
def exWash : List Bar := List.replicate 21 ⟨0, 10, 10, 10, 10, 100⟩

/-- The loop invariant of the backtest: cash and position stay
nonnegative. -/
def bt_inv (s : BTState) : Prop := 0 ≤ s.cash ∧ 0 ≤ s.position

/-- The wash-sale candidate condition as the specification words it: the
close exceeds the open by more than 3% and the volume exceeds one and a
half times the 20-bar average volume. -/
def washCond (avg : ℚ) (b : Bar) : Prop := b.opn * 1.03 < b.close ∧ avg * 1.5 < b.volume

/-! ## Column-length bookkeeping -/

@[simp]
theorem ewmGo_length (a prev : ℚ) (xs : List ℚ) : (ewmGo a prev xs).length = xs.length := by
  induction xs generalizing prev with
  | nil => rfl
  | cons y ys ih => simp [ewmGo, ih]

@[simp]
theorem ewmMean_length (s : ℕ) (xs : List ℚ) : (ewmMean s xs).length = xs.length := by
  cases xs with
  | nil => rfl
  | cons x rest => simp [ewmMean]

@[simp]
theorem rollingMean_length (w : ℕ) (xs : List ℚ) : (rollingMean w xs).length = xs.length := by
  simp [rollingMean]

@[simp]
theorem rollingStd_length (w : ℕ) (xs : List ℚ) : (rollingStd w xs).length = xs.length := by
  simp [rollingStd]

@[simp]
theorem load_data_bars (bars : List Bar) : (load_data bars).bars = bars := rfl

@[simp]
theorem load_data_DIF_length (bars : List Bar) :
    (load_data bars).DIF.length = bars.length := by
  simp [load_data]

@[simp]
theorem load_data_DEA_length (bars : List Bar) :
    (load_data bars).DEA.length = bars.length := by
  simp [load_data]

@[simp]
theorem load_data_MACD_length (bars : List Bar) :
    (load_data bars).MACD_Hist.length = bars.length := by
  simp [load_data]

/-! ## NaN-comparison simp lemmas -/

@[simp]
theorem nanLt_none_left (y : Option ℚ) : nanLt none y = false := by cases y <;> rfl

@[simp]
theorem nanLt_none_right (x : Option ℚ) : nanLt x none = false := by cases x <;> rfl

@[simp]
theorem nanLe_none_left (y : Option ℚ) : nanLe none y = false := by cases y <;> rfl

@[simp]
theorem nanLe_none_right (x : Option ℚ) : nanLe x none = false := by cases x <;> rfl

@[simp]
theorem nanGt_none_left (y : Option ℚ) : nanGt none y = false := by cases y <;> rfl

@[simp]
theorem nanGt_none_right (x : Option ℚ) : nanGt x none = false := by cases x <;> rfl

@[simp]
theorem nanGe_none_left (y : Option ℚ) : nanGe none y = false := by cases y <;> rfl

@[simp]
theorem nanGe_none_right (x : Option ℚ) : nanGe x none = false := by cases x <;> rfl

@[simp]
theorem nanLt_some_some (a b : ℚ) : nanLt (some a) (some b) = decide (a < b) := rfl

@[simp]
theorem nanLe_some_some (a b : ℚ) : nanLe (some a) (some b) = decide (a ≤ b) := rfl

@[simp]
theorem nanGt_some_some (a b : ℚ) : nanGt (some a) (some b) = decide (b < a) := rfl

@[simp]
theorem nanGe_some_some (a b : ℚ) : nanGe (some a) (some b) = decide (b ≤ a) := rfl

/-! ## Indexing the derived columns -/

theorem getElem?_zipWith {α β γ : Type} (f : α → β → γ) (as : List α) (bs : List β) (i : ℕ) :
    (List.zipWith f as bs)[i]? = (as[i]?).bind fun a => (bs[i]?).map fun b => f a b := by
  induction as generalizing bs i with
  | nil => simp
  | cons a as ih =>
    cases bs with
    | nil => simp
    | cons b bs =>
      cases i with
      | zero => simp [List.zipWith]
      | succ n => simp [List.zipWith, ih]

theorem idx_rollingMean (w : ℕ) (xs : List ℚ) (i : ℕ) (hi : i < xs.length) :
    idx (rollingMean w xs) i =
      if w ≤ i + 1 then some ((((xs.take (i + 1)).drop (i + 1 - w)).sum) / w) else none := by
  rw [idx, rollingMean, List.getElem?_map, List.getElem?_range hi]
  by_cases h : w ≤ i + 1 <;> simp [h]

theorem idx_rollingMean_eq_none (w : ℕ) (xs : List ℚ) (i : ℕ) (hi : i < xs.length) :
    idx (rollingMean w xs) i = none ↔ i + 1 < w := by
  rw [idx_rollingMean w xs i hi]
  by_cases h : w ≤ i + 1 <;> simp [h] <;> omega

theorem idx_rollingStd_eq_none (w : ℕ) (xs : List ℚ) (i : ℕ) (hi : i < xs.length) :
    idx (rollingStd w xs) i = none ↔ i + 1 < w := by
  rw [idx, rollingStd, List.getElem?_map, List.getElem?_range hi]
  by_cases h : w ≤ i + 1 <;> simp [h] <;> omega

theorem idx_nanZip (f : ℚ → ℚ → ℚ) (xs ys : List (Option ℚ)) (i : ℕ)
    (hx : i < xs.length) (hy : i < ys.length) :
    idx (List.zipWith (nanZip f) xs ys) i = nanZip f (idx xs i) (idx ys i) := by
  rw [idx, getElem?_zipWith, List.getElem?_eq_getElem hx, List.getElem?_eq_getElem hy, idx, idx,
    List.getElem?_eq_getElem hx, List.getElem?_eq_getElem hy]
  rfl

theorem nanZip_eq_none (f : ℚ → ℚ → ℚ) (a b : Option ℚ) :
    nanZip f a b = none ↔ a = none ∨ b = none := by
  cases a <;> cases b <;> simp [nanZip]

/-! ## Backtest loop lemmas -/

theorem floor_div_eq_zero (c p : ℚ) (hc : 0 ≤ c) (hp : 0 < p) (hlt : c < p) : ⌊c / p⌋ = 0 := by
  rw [Int.floor_eq_zero_iff]
  exact ⟨div_nonneg hc hp.le, (div_lt_one hp).mpr hlt⟩

theorem bt_step_inv (s : BTState) (r : ℕ × ℚ × ℤ) (hp : 0 < r.2.1) (h : bt_inv s) :
    bt_inv (bt_step s r) := by
  obtain ⟨d, p, sig⟩ := r
  simp only at hp
  rw [bt_step]
  split_ifs with hbuy hsell
  · refine ⟨?_, ?_⟩
    · show 0 ≤ s.cash - (⌊s.cash / p⌋ : ℚ) * p
      rw [sub_nonneg]
      calc (⌊s.cash / p⌋ : ℚ) * p ≤ s.cash / p * p :=
            mul_le_mul_of_nonneg_right (Int.floor_le _) hp.le
        _ = s.cash := div_mul_cancel₀ _ (ne_of_gt hp)
    · show (0 : ℤ) ≤ ⌊s.cash / p⌋
      exact Int.floor_nonneg.mpr (div_nonneg h.1 hp.le)
  · refine ⟨?_, le_refl 0⟩
    show 0 ≤ s.cash + (s.position : ℚ) * p
    exact add_nonneg h.1 (mul_nonneg (by exact_mod_cast h.2) hp.le)
  · exact h

theorem bt_foldl_inv (rows : List (ℕ × ℚ × ℤ)) (s : BTState)
    (hp : ∀ r ∈ rows, 0 < r.2.1) (h : bt_inv s) : bt_inv (rows.foldl bt_step s) := by
  induction rows generalizing s with
  | nil => exact h
  | cons r rs ih =>
    exact ih _ (fun x hx => hp x (List.mem_cons_of_mem r hx))
      (bt_step_inv s r (hp r (List.mem_cons_self r rs)) h)

theorem mem_enumFrom_snd {α : Type} {p : ℕ × α} {n : ℕ} {l : List α}
    (h : p ∈ List.enumFrom n l) : p.2 ∈ l := by
  induction l generalizing n with
  | nil => simp [List.enumFrom] at h
  | cons a as ih =>
    rw [List.enumFrom] at h
    rcases List.mem_cons.mp h with h | h
    · rw [h]
      exact List.mem_cons_self a as
    · exact List.mem_cons_of_mem a (ih h)

theorem bt_rows_price (df : DF) (r : ℕ × ℚ × ℤ) (hr : r ∈ bt_rows df) :
    ∃ b ∈ df.bars, r.2.1 = b.close := by
  rw [bt_rows] at hr
  obtain ⟨p, hp, rfl⟩ := List.mem_map.mp hr
  exact ⟨p.2, mem_enumFrom_snd (by simpa [List.enum] using hp), rfl⟩

/-! ## Evaluation lemmas for the binary64 rounding model -/

theorem nat_log2_zpow_le (n : ℕ) (hn : n ≠ 0) :
    (2 : ℚ) ^ ((Nat.log2 n : ℕ) : ℤ) ≤ (n : ℚ) := by
  rw [zpow_natCast]
  exact_mod_cast Nat.log2_self_le hn

theorem nat_lt_log2_zpow (n : ℕ) :
    (n : ℚ) < (2 : ℚ) ^ (((Nat.log2 n : ℕ) : ℤ) + 1) := by
  have h : (n : ℚ) < (2 : ℚ) ^ (Nat.log2 n + 1 : ℕ) := by exact_mod_cast Nat.lt_log2_self
  rw [show (((Nat.log2 n : ℕ) : ℤ) + 1) = ((Nat.log2 n + 1 : ℕ) : ℤ) by push_cast; ring,
    zpow_natCast]
  exact h

theorem flPos_eq_roundAt (q : ℚ) (e : ℤ) (h0 : 0 < q)
    (h1 : (2 : ℚ) ^ e ≤ q) (h2 : q < (2 : ℚ) ^ (e + 1)) : flPos q = roundAt e q := by
  have hnum : (0 : ℤ) < q.num := Rat.num_pos.mpr h0
  have hnum' : (0 : ℚ) < (q.num : ℚ) := by exact_mod_cast hnum
  have hden : (0 : ℚ) < (q.den : ℚ) := by exact_mod_cast q.den_pos
  have htn : ((q.num.toNat : ℕ) : ℚ) = (q.num : ℚ) := by
    rw [← Int.cast_natCast, Int.toNat_of_nonneg hnum.le]
  have hn0 : q.num.toNat ≠ 0 := by omega
  have htwo : (0 : ℚ) < 2 := by norm_num
  set L1 : ℤ := (Nat.log2 q.num.toNat : ℤ) with hL1
  set L2 : ℤ := (Nat.log2 q.den : ℤ) with hL2
  have hc1 : (2 : ℚ) ^ L1 ≤ (q.num : ℚ) := htn ▸ nat_log2_zpow_le q.num.toNat hn0
  have hc2 : (q.num : ℚ) < (2 : ℚ) ^ (L1 + 1) := htn ▸ nat_lt_log2_zpow q.num.toNat
  have hc3 : (2 : ℚ) ^ L2 ≤ (q.den : ℚ) := nat_log2_zpow_le q.den q.den_nz
  have hc4 : (q.den : ℚ) < (2 : ℚ) ^ (L2 + 1) := nat_lt_log2_zpow q.den
  have hq : (q.num : ℚ) / (q.den : ℚ) = q := Rat.num_div_den q
  have hupper : q < (2 : ℚ) ^ (L1 - L2 + 1) := by
    rw [← hq, show L1 - L2 + 1 = (L1 + 1) - L2 by ring,
      zpow_sub₀ (by norm_num : (2 : ℚ) ≠ 0),
      div_lt_div_iff₀ hden (zpow_pos htwo L2)]
    calc (q.num : ℚ) * (2 : ℚ) ^ L2
        < (2 : ℚ) ^ (L1 + 1) * (2 : ℚ) ^ L2 := by
          exact mul_lt_mul_of_pos_right hc2 (zpow_pos htwo L2)
      _ ≤ (2 : ℚ) ^ (L1 + 1) * (q.den : ℚ) := by
          exact mul_le_mul_of_nonneg_left hc3 (zpow_pos htwo (L1 + 1)).le
  have hlower : (2 : ℚ) ^ (L1 - L2 - 1) < q := by
    rw [← hq, show L1 - L2 - 1 = L1 - (L2 + 1) by ring,
      zpow_sub₀ (by norm_num : (2 : ℚ) ≠ 0),
      div_lt_div_iff₀ (zpow_pos htwo (L2 + 1)) hden]
    calc (2 : ℚ) ^ L1 * (q.den : ℚ)
        ≤ (q.num : ℚ) * (q.den : ℚ) := mul_le_mul_of_nonneg_right hc1 hden.le
      _ < (q.num : ℚ) * (2 : ℚ) ^ (L2 + 1) := mul_lt_mul_of_pos_left hc4 hnum'
  have hone : (1 : ℚ) < 2 := by norm_num
  have hne1 : ¬ ((2 : ℚ) ^ (L1 - L2 + 1) ≤ q) := not_le.mpr hupper
  show roundAt
      (if (2 : ℚ) ^ (L1 - L2 + 1) ≤ q then L1 - L2 + 1
        else if (2 : ℚ) ^ (L1 - L2) ≤ q then L1 - L2 else L1 - L2 - 1) q = roundAt e q
  rw [if_neg hne1]
  by_cases hcase : (2 : ℚ) ^ (L1 - L2) ≤ q
  · rw [if_pos hcase]
    have he1 : e < L1 - L2 + 1 :=
      (zpow_lt_zpow_iff_right₀ hone).mp (lt_of_le_of_lt h1 hupper)
    have he2 : L1 - L2 < e + 1 :=
      (zpow_lt_zpow_iff_right₀ hone).mp (lt_of_le_of_lt hcase h2)
    have : e = L1 - L2 := by omega
    rw [this]
  · rw [if_neg hcase]
    have he1 : e < L1 - L2 :=
      (zpow_lt_zpow_iff_right₀ hone).mp (lt_of_le_of_lt h1 (not_le.mp hcase))
    have he2 : L1 - L2 - 1 < e + 1 :=
      (zpow_lt_zpow_iff_right₀ hone).mp (lt_trans hlower h2)
    have : e = L1 - L2 - 1 := by omega
    rw [this]

theorem fl_pos_eq (q : ℚ) (e : ℤ) (h0 : 0 < q) (h1 : (2 : ℚ) ^ e ≤ q)
    (h2 : q < (2 : ℚ) ^ (e + 1)) : fl q = roundAt e q := by
  unfold fl
  rw [if_neg (ne_of_gt h0), if_pos h0]
  exact flPos_eq_roundAt q e h0 h1 h2

theorem roundAt_eq_lo (e m0 : ℤ) (q : ℚ) (hlo : (m0 : ℚ) ≤ q * (2 : ℚ) ^ (52 - e))
    (hhi : q * (2 : ℚ) ^ (52 - e) < (m0 : ℚ) + 1 / 2) :
    roundAt e q = (m0 : ℚ) * (2 : ℚ) ^ (e - 52) := by
  have hm0 : ⌊q * (2 : ℚ) ^ (52 - e)⌋ = m0 := Int.floor_eq_iff.mpr ⟨hlo, by linarith⟩
  simp only [roundAt]
  rw [hm0, if_neg (by linarith), if_pos (by linarith)]

theorem roundAt_eq_hi (e m0 : ℤ) (q : ℚ) (hlo : (m0 : ℚ) + 1 / 2 < q * (2 : ℚ) ^ (52 - e))
    (hhi : q * (2 : ℚ) ^ (52 - e) < (m0 : ℚ) + 1) :
    roundAt e q = ((m0 + 1 : ℤ) : ℚ) * (2 : ℚ) ^ (e - 52) := by
  have hm0 : ⌊q * (2 : ℚ) ^ (52 - e)⌋ = m0 := Int.floor_eq_iff.mpr ⟨by linarith, hhi⟩
  simp only [roundAt]
  rw [hm0, if_pos (by linarith)]

theorem roundAt_eq_tie_odd (e m0 : ℤ) (q : ℚ)
    (heq : q * (2 : ℚ) ^ (52 - e) = (m0 : ℚ) + 1 / 2) (hodd : m0 % 2 = 1) :
    roundAt e q = ((m0 + 1 : ℤ) : ℚ) * (2 : ℚ) ^ (e - 52) := by
  have hm0 : ⌊q * (2 : ℚ) ^ (52 - e)⌋ = m0 := Int.floor_eq_iff.mpr ⟨by linarith, by linarith⟩
  simp only [roundAt]
  rw [hm0, if_neg (by linarith), if_neg (by linarith), if_neg (by omega)]

/-- The binary64 evaluation of the three Fibonacci levels for
`periodLow = 100`, `periodHigh = 200`: the computed 78.6% level is
`178.60000000000002…`, strictly above the parsed double of `178.6`, so the
closes `178.6` and `178.5999` both land in the elevated zone. -/
theorem fib64_scenario :
    fibZone64 100 200 178.6 = FibZone.elevated ∧
    fibZone64 100 200 178.5999 = FibZone.elevated := by
  have h100 : fl (100 : ℚ) = 100 := by
    rw [fl_pos_eq 100 6 (by norm_num) (by norm_num) (by norm_num),
      roundAt_eq_lo 6 7036874417766400 100 (by norm_num) (by norm_num)]
    norm_num
  have h200 : fl (200 : ℚ) = 200 := by
    rw [fl_pos_eq 200 7 (by norm_num) (by norm_num) (by norm_num),
      roundAt_eq_lo 7 7036874417766400 200 (by norm_num) (by norm_num)]
    norm_num
  have h786 : fl (0.786 : ℚ) = 7079658614226420 / 9007199254740992 := by
    rw [fl_pos_eq 0.786 (-1) (by norm_num) (by norm_num) (by norm_num),
      roundAt_eq_hi (-1) 7079658614226419 0.786 (by norm_num) (by norm_num)]
    norm_num
  have h618 : fl (0.618 : ℚ) = 5566449139429933 / 9007199254740992 := by
    rw [fl_pos_eq 0.618 (-1) (by norm_num) (by norm_num) (by norm_num),
      roundAt_eq_lo (-1) 5566449139429933 0.618 (by norm_num) (by norm_num)]
    norm_num
  have h236 : fl (0.236 : ℚ) = 8502796096475496 / 36028797018963968 := by
    rw [fl_pos_eq 0.236 (-3) (by norm_num) (by norm_num) (by norm_num),
      roundAt_eq_lo (-3) 8502796096475496 0.236 (by norm_num) (by norm_num)]
    norm_num
  have hp786 : fl ((100 : ℚ) * (7079658614226420 / 9007199254740992)) =
      5530983292364391 / 70368744177664 := by
    rw [fl_pos_eq _ 6 (by norm_num) (by norm_num) (by norm_num),
      roundAt_eq_hi 6 5530983292364390 _ (by norm_num) (by norm_num)]
    norm_num
  have hp618 : fl ((100 : ℚ) * (5566449139429933 / 9007199254740992)) =
      8697576780359270 / 140737488355328 := by
    rw [fl_pos_eq _ 5 (by norm_num) (by norm_num) (by norm_num),
      roundAt_eq_lo 5 8697576780359270 _ (by norm_num) (by norm_num)]
    norm_num
  have hp236 : fl ((100 : ℚ) * (8502796096475496 / 36028797018963968)) =
      6642809450371481 / 281474976710656 := by
    rw [fl_pos_eq _ 4 (by norm_num) (by norm_num) (by norm_num),
      roundAt_eq_lo 4 6642809450371481 _ (by norm_num) (by norm_num)]
    norm_num
  have hs786 : fl ((100 : ℚ) + 5530983292364391 / 70368744177664) =
      6283928855065396 / 35184372088832 := by
    rw [fl_pos_eq _ 7 (by norm_num) (by norm_num) (by norm_num),
      roundAt_eq_tie_odd 7 6283928855065395 _ (by norm_num) (by norm_num)]
    norm_num
  have hs618 : fl ((100 : ℚ) + 8697576780359270 / 140737488355328) =
      5692831403973018 / 35184372088832 := by
    rw [fl_pos_eq _ 7 (by norm_num) (by norm_num) (by norm_num),
      roundAt_eq_tie_odd 7 5692831403973017 _ (by norm_num) (by norm_num)]
    norm_num
  have hs236 : fl ((100 : ℚ) + 6642809450371481 / 281474976710656) =
      8697576780359270 / 70368744177664 := by
    rw [fl_pos_eq _ 6 (by norm_num) (by norm_num) (by norm_num),
      roundAt_eq_lo 6 8697576780359270 _ (by norm_num) (by norm_num)]
    norm_num
  have hdiff : (200 : ℚ) - 100 = 100 := by norm_num
  constructor
  · have hc : fl (178.6 : ℚ) = 6283928855065395 / 35184372088832 := by
      rw [fl_pos_eq 178.6 7 (by norm_num) (by norm_num) (by norm_num),
        roundAt_eq_lo 7 6283928855065395 178.6 (by norm_num) (by norm_num)]
      norm_num
    simp only [fibZone64]
    rw [h100, h200, hdiff, h100, h786, h618, h236, hp786, hp618, hp236, hs786, hs618, hs236, hc]
    unfold fib_classify
    rw [if_neg (by norm_num), if_pos (by norm_num)]
  · have hc : fl (178.5999 : ℚ) = 6283925336628186 / 35184372088832 := by
      rw [fl_pos_eq 178.5999 7 (by norm_num) (by norm_num) (by norm_num),
        roundAt_eq_lo 7 6283925336628186 178.5999 (by norm_num) (by norm_num)]
      norm_num
    simp only [fibZone64]
    rw [h100, h200, hdiff, h100, h786, h618, h236, hp786, hp618, hp236, hs786, hs618, hs236, hc]
    unfold fib_classify
    rw [if_neg (by norm_num), if_pos (by norm_num)]

/-! ## Wash-sale detector lemmas -/

theorem filter_getLast?_eq_some_iff {α : Type} (p : α → Bool) (l : List α) (k : α) :
    (l.filter p).getLast? = some k ↔
      ∃ i : ℕ, l[i]? = some k ∧ p k = true ∧
        ∀ (j : ℕ) (b2 : α), i < j → l[j]? = some b2 → p b2 = false := by
  induction l using List.reverseRecOn with
  | nil => simp
  | append_singleton l2 a ih =>
    rw [List.filter_append]
    by_cases hpa : p a = true
    · rw [show List.filter p [a] = [a] by rw [List.filter_cons, if_pos hpa]; rfl,
        List.getLast?_concat]
      constructor
      · intro hk
        have hka : a = k := by simpa using hk
        refine ⟨l2.length, ?_, ?_, ?_⟩
        · rw [List.getElem?_concat_length, hka]
        · rw [← hka]
          exact hpa
        · intro j b2 hj hjb
          rw [List.getElem?_eq_none (by simp; omega)] at hjb
          exact absurd hjb (by simp)
      · rintro ⟨i, hik, hpk, hall⟩
        rcases lt_trichotomy i l2.length with h | h | h
        · exfalso
          have hfa := hall l2.length a h (List.getElem?_concat_length l2 a)
          rw [hfa] at hpa
          exact absurd hpa (by simp)
        · rw [h, List.getElem?_concat_length] at hik
          exact hik
        · exfalso
          rw [List.getElem?_eq_none (by simp; omega)] at hik
          exact absurd hik (by simp)
    · have hpa' : p a = false := by
        revert hpa
        cases p a <;> simp
      rw [show List.filter p [a] = [] by rw [List.filter_cons, if_neg hpa]; rfl,
        List.append_nil, ih]
      constructor
      · rintro ⟨i, hik, hpk, hall⟩
        obtain ⟨hilt, -⟩ := List.getElem?_eq_some.mp hik
        refine ⟨i, ?_, hpk, ?_⟩
        · rw [List.getElem?_append, if_pos hilt]
          exact hik
        · intro j b2 hj hjb
          rcases lt_trichotomy j l2.length with h | h | h
          · rw [List.getElem?_append, if_pos h] at hjb
            exact hall j b2 hj hjb
          · rw [h, List.getElem?_concat_length] at hjb
            have hab : a = b2 := by simpa using hjb
            rw [← hab]
            exact hpa'
          · rw [List.getElem?_eq_none (by simp; omega)] at hjb
            exact absurd hjb (by simp)
      · rintro ⟨i, hik, hpk, hall⟩
        rcases lt_trichotomy i l2.length with h | h | h
        · refine ⟨i, ?_, hpk, ?_⟩
          · rw [List.getElem?_append, if_pos h] at hik
            exact hik
          · intro j b2 hj hjb
            obtain ⟨hjlt, -⟩ := List.getElem?_eq_some.mp hjb
            apply hall j b2 hj
            rw [List.getElem?_append, if_pos hjlt]
            exact hjb
        · exfalso
          rw [h, List.getElem?_concat_length] at hik
          have hak : a = k := by simpa using hik
          rw [← hak, hpa'] at hpk
          exact absurd hpk (by simp)
        · exfalso
          rw [List.getElem?_eq_none (by simp; omega)] at hik
          exact absurd hik (by simp)

theorem wash_slice_getElem? (bars : List Bar) (hN : 21 ≤ bars.length) (j : ℕ) :
    (wash_slice bars)[j]? = if j < 19 then bars[bars.length - 20 + j]? else none := by
  rw [wash_slice, List.getElem?_drop, List.getElem?_take]
  by_cases h : j < 19
  · rw [if_pos (by omega : bars.length - 20 + j < bars.length - 1), if_pos h]
  · rw [if_neg (by omega : ¬(bars.length - 20 + j < bars.length - 1)), if_neg h]

theorem avg_vol_20_eq (bars : List Bar) (hN : 20 ≤ bars.length) :
    avg_vol_20 bars =
      some ((((bars.drop (bars.length - 20)).map Bar.volume).sum) / 20) := by
  rw [avg_vol_20, List.getLast?_eq_getElem?, rollingMean_length, List.length_map, rollingMean]
  simp only [List.length_map]
  rw [List.getElem?_map, List.getElem?_range (by omega : bars.length - 1 < bars.length)]
  have h1 : bars.length - 1 + 1 = bars.length := by omega
  rw [Option.map_some']
  simp only [h1, if_pos hN]
  rw [show (bars.map Bar.volume).take bars.length = bars.map Bar.volume from by
      apply List.take_of_length_le
      simp,
    ← List.map_drop]
  rfl

/-! ## Shape of `generate_signals` -/

theorem generate_signals_isSome (df : DF) (high low : ℚ) :
    (generate_signals df high low).isSome ↔
      df.bars ≠ [] ∧ df.MACD_Hist ≠ [] ∧ df.MACD_Hist.dropLast ≠ [] := by
  rw [generate_signals]
  rcases h1 : df.bars.getLast? with - | b
  · rw [List.getLast?_eq_none_iff] at h1
    simp [h1]
  · rcases h2 : df.MACD_Hist.getLast? with - | x
    · rw [List.getLast?_eq_none_iff] at h2
      simp [h2]
    · rcases h3 : df.MACD_Hist.dropLast.getLast? with - | y
      · rw [List.getLast?_eq_none_iff] at h3
        simp [h3]
      · have hb : df.bars ≠ [] := by
          intro h
          rw [h] at h1
          simp at h1
        have hx : df.MACD_Hist ≠ [] := by
          intro h
          rw [h] at h2
          simp at h2
        have hy : df.MACD_Hist.dropLast ≠ [] := by
          intro h
          rw [h] at h3
          simp at h3
        simp [hb, hx, hy]

theorem generate_signals_wash_fields (df : DF) (high low : ℚ) (r : SignalReport)
    (hr : generate_signals df high low = some r) :
    r.wash_detected = wash_detected df.bars ∧
    (wash_detected df.bars = true →
      r.wash_key_date = (key_candle df.bars).map Bar.date ∧
      r.wash_key_low = (key_candle df.bars).map Bar.low) := by
  rw [generate_signals.eq_def] at hr
  rcases h1 : df.bars.getLast? with - | lastB2 <;> rw [h1] at hr
  · exact absurd hr (by simp)
  rcases h2 : df.MACD_Hist.getLast? with - | hist <;> rw [h2] at hr
  · exact absurd hr (by simp)
  rcases h3 : df.MACD_Hist.dropLast.getLast? with - | prev <;> rw [h3] at hr
  · exact absurd hr (by simp)
  obtain rfl := Option.some_inj.mp hr
  refine ⟨rfl, fun hdet => ⟨?_, ?_⟩⟩
  · show (if wash_detected df.bars then (key_candle df.bars).map Bar.date else none) =
      (key_candle df.bars).map Bar.date
    rw [if_pos hdet]
  · show (if wash_detected df.bars then (key_candle df.bars).map Bar.low else none) =
      (key_candle df.bars).map Bar.low
    rw [if_pos hdet]

/-! ## Claim theorems -/

/-- C10: `generate_signals` unconditionally reads the last bar and the
second-to-last MACD histogram value, so on an IndicatorSeries built by the
indicator engine it produces a report (all five sub-signals together in one
record) exactly when the series has at least two bars, and fails with an
index error — modelled as `none` — on zero or one bars. -/
theorem signals_defined_iff_two_bars (bars : List Bar) (high low : ℚ) :
    (generate_signals (load_data bars) high low).isSome ↔ 2 ≤ bars.length := by
  rw [generate_signals_isSome]
  have h1 : (load_data bars).bars ≠ [] ↔ 1 ≤ bars.length := by
    rw [load_data_bars, ← List.length_pos]
    omega
  have h2 : (load_data bars).MACD_Hist ≠ [] ↔ 1 ≤ bars.length := by
    rw [← List.length_pos, load_data_MACD_length]
    omega
  have h3 : (load_data bars).MACD_Hist.dropLast ≠ [] ↔ 2 ≤ bars.length := by
    rw [← List.length_pos, List.length_dropLast, load_data_MACD_length]
    omega
  rw [h1, h2, h3]
  omega

/-- C9: the backtest is a pure function of the IndicatorSeries and the
initial capital — two runs on the same input agree, the input frame is
returned unmodified (`df = df.copy()` keeps the caller's frame intact), and
re-running on the frame carried inside the result reproduces the result. -/
theorem backtest_deterministic_pure (df : DF) (cap : ℚ) :
    run_backtest df cap = run_backtest df cap ∧
    (run_backtest df cap).df = df ∧
    run_backtest ((run_backtest df cap).df) cap = run_backtest df cap :=
  ⟨rfl, rfl, rfl⟩

/-- C2 counterexample: a holding with zero average cost, positive shares
and a positive live price has cost basis 0 and positive profit, and pandas
evaluates `(損益/成本)*100` to `inf`, which `fillna(0)` does not replace —
an infinity surfaces in the report, where the claim requires 0. -/
theorem returnPct_inf_cex :
    (value_holding (some 450) ⟨0, 1000⟩).returnPct = PdF.inf ∧
    (value_holding (some 450) ⟨0, 1000⟩).costBasis = 0 ∧
    PdF.inf ≠ PdF.val 0 := by
  refine ⟨?_, by norm_num [value_holding], by simp⟩
  norm_num [value_holding, pdDiv, pdMul100, fillna0]

/-- C2 amended: `returnPct` is `profitLoss/costBasis*100` whenever the cost
basis is nonzero; with a zero cost basis it is 0 exactly when the profit is
also 0 (the NaN of `0/0` that `fillna(0)` replaces), and otherwise it is a
signed infinity that passes through `fillna` and surfaces in the report. -/
theorem returnPct_characterization (live : Option ℚ) (h : Holding) :
    ((value_holding live h).costBasis ≠ 0 →
      (value_holding live h).returnPct =
        PdF.val ((value_holding live h).profitLoss / (value_holding live h).costBasis * 100)) ∧
    ((value_holding live h).costBasis = 0 →
      ((value_holding live h).profitLoss = 0 → (value_holding live h).returnPct = PdF.val 0) ∧
      (0 < (value_holding live h).profitLoss → (value_holding live h).returnPct = PdF.inf) ∧
      ((value_holding live h).profitLoss < 0 → (value_holding live h).returnPct = PdF.ninf)) := by
  have hrp : (value_holding live h).returnPct =
      fillna0 (pdMul100
        (pdDiv (value_holding live h).profitLoss (value_holding live h).costBasis)) := rfl
  constructor
  · intro hcb
    rw [hrp]
    unfold pdDiv
    rw [if_neg hcb]
    rfl
  · intro hcb
    refine ⟨fun hpl => ?_, fun hpl => ?_, fun hpl => ?_⟩
    · rw [hrp]
      unfold pdDiv
      rw [if_pos hcb, if_pos hpl]
      rfl
    · rw [hrp]
      unfold pdDiv
      rw [if_pos hcb, if_neg hpl.ne', if_pos hpl]
      rfl
    · rw [hrp]
      unfold pdDiv
      rw [if_pos hcb, if_neg hpl.ne, if_neg (not_lt_of_lt hpl)]
      rfl

/-- C2 witness: the specification's own scenario — average cost 500, 1000
shares, live price 450 — valued through the characterization gives a
return of −10%. -/
theorem returnPct_characterization_witness :
    (value_holding (some 450) ⟨500, 1000⟩).returnPct = PdF.val (-10) := by
  have h := (returnPct_characterization (some 450) ⟨500, 1000⟩).1 (by norm_num [value_holding])
  rw [h]
  norm_num [value_holding]

/-- C3 counterexample: on the empty IndicatorSeries the signal generator
does not return an "insufficient data" report — `df['Close'].iloc[-1]`
raises, modelled by `none`. -/
theorem empty_signals_raise_cex :
    generate_signals (load_data []) 200 100 = none := rfl

/-- C3 amended: an empty price-history input produces an empty
IndicatorSeries (every column empty), and the signal generator applied to
that empty series fails with an index error (no report at all) instead of
returning a degraded report; the application guards this by checking for an
empty frame before calling it. -/
theorem empty_input_behavior :
    (load_data []).bars = [] ∧ (load_data []).MA5 = [] ∧ (load_data []).MA20 = [] ∧
    (load_data []).STD20 = [] ∧ (load_data []).BB_Upper = [] ∧ (load_data []).BB_Lower = [] ∧
    (load_data []).DIF = [] ∧ (load_data []).DEA = [] ∧ (load_data []).MACD_Hist = [] ∧
    (load_data []).OBV = [] ∧ (load_data []).OBV_MA = [] ∧ (load_data []).Returns = [] ∧
    ∀ high low : ℚ, generate_signals (load_data []) high low = none :=
  ⟨rfl, rfl, rfl, rfl, rfl, rfl, rfl, rfl, rfl, rfl, rfl, rfl, fun _ _ => rfl⟩

/-- C4 counterexample: already on a one-bar input the EMA-based fields are
defined at index 0 — `ewm(span, adjust=False)` seeds with the first close,
so `DIF`, `DEA` and the histogram hold the value 0 there, not NaN as the
claim requires. -/
theorem ema_defined_at_zero_cex :
    (load_data [exBar1]).DIF[0]? = some 0 ∧
    (load_data [exBar1]).DEA[0]? = some 0 ∧
    (load_data [exBar1]).MACD_Hist[0]? = some 0 := by
  norm_num [load_data, exBar1, ewmMean, ewmGo, List.zipWith]

/-- C4 amended: the rolling fields obey their warm-ups exactly — `ma5` is
NaN precisely before index 4 and `ma20`/`std20`/both Bollinger bands
precisely before index 19 — but the EMA-based fields (`DIF`, `DEA`, the
histogram) are defined at every index from 0 on, because the recursive EMA
is seeded with the first value. -/
theorem warmup_characterization (bars : List Bar) (i : ℕ) (hi : i < bars.length) :
    (idx (load_data bars).MA5 i = none ↔ i < 4) ∧
    (idx (load_data bars).MA20 i = none ↔ i < 19) ∧
    (idx (load_data bars).STD20 i = none ↔ i < 19) ∧
    (idx (load_data bars).BB_Upper i = none ↔ i < 19) ∧
    (idx (load_data bars).BB_Lower i = none ↔ i < 19) ∧
    (∃ q, (load_data bars).DIF[i]? = some q) ∧
    (∃ q, (load_data bars).DEA[i]? = some q) ∧
    (∃ q, (load_data bars).MACD_Hist[i]? = some q) := by
  have hic : i < (bars.map Bar.close).length := by simpa using hi
  have hma20 :
      idx (load_data bars).MA20 i = none ↔ i < 19 := by
    rw [show (load_data bars).MA20 = rollingMean 20 (bars.map Bar.close) from rfl,
      idx_rollingMean_eq_none 20 _ i hic]
    omega
  have hstd20 :
      idx (load_data bars).STD20 i = none ↔ i < 19 := by
    rw [show (load_data bars).STD20 = rollingStd 20 (bars.map Bar.close) from rfl,
      idx_rollingStd_eq_none 20 _ i hic]
    omega
  have hlenBB : i < (rollingMean 20 (bars.map Bar.close)).length ∧
      i < (rollingStd 20 (bars.map Bar.close)).length := by
    constructor <;> simpa using hi
  refine ⟨?_, hma20, hstd20, ?_, ?_, ?_, ?_, ?_⟩
  · rw [show (load_data bars).MA5 = rollingMean 5 (bars.map Bar.close) from rfl,
      idx_rollingMean_eq_none 5 _ i hic]
    omega
  · rw [show (load_data bars).BB_Upper =
        List.zipWith (nanZip fun m s => m + 2 * s) (rollingMean 20 (bars.map Bar.close))
          (rollingStd 20 (bars.map Bar.close)) from rfl,
      idx_nanZip _ _ _ i hlenBB.1 hlenBB.2, nanZip_eq_none]
    rw [show idx (rollingMean 20 (bars.map Bar.close)) i = idx (load_data bars).MA20 i from rfl,
      show idx (rollingStd 20 (bars.map Bar.close)) i = idx (load_data bars).STD20 i from rfl,
      hma20, hstd20]
    omega
  · rw [show (load_data bars).BB_Lower =
        List.zipWith (nanZip fun m s => m - 2 * s) (rollingMean 20 (bars.map Bar.close))
          (rollingStd 20 (bars.map Bar.close)) from rfl,
      idx_nanZip _ _ _ i hlenBB.1 hlenBB.2, nanZip_eq_none]
    rw [show idx (rollingMean 20 (bars.map Bar.close)) i = idx (load_data bars).MA20 i from rfl,
      show idx (rollingStd 20 (bars.map Bar.close)) i = idx (load_data bars).STD20 i from rfl,
      hma20, hstd20]
    omega
  · have hl : i < (load_data bars).DIF.length := by simpa using hi
    exact ⟨_, List.getElem?_eq_getElem hl⟩
  · have hl : i < (load_data bars).DEA.length := by simpa using hi
    exact ⟨_, List.getElem?_eq_getElem hl⟩
  · have hl : i < (load_data bars).MACD_Hist.length := by simpa using hi
    exact ⟨_, List.getElem?_eq_getElem hl⟩

/-- C4 witness: on a one-bar input, index 0 has `ma5` undefined while `DIF`
is already defined. -/
theorem warmup_characterization_witness :
    (idx (load_data [exBar1]).MA5 0 = none) ∧ ∃ q, (load_data [exBar1]).DIF[0]? = some q :=
  ⟨((warmup_characterization [exBar1] 0 (by norm_num)).1).mpr (by norm_num),
   (warmup_characterization [exBar1] 0 (by norm_num)).2.2.2.2.2.1⟩

/-- C6: the `Signal` column fires a buy at bar `i` exactly when
`MA5[i] > MA20[i]` and `MA5[i-1] <= MA20[i-1]`, a sell exactly on the
mirror-image cross, and stays 0 whenever any of the four values involved is
NaN (warm-up, or `i = 0` where `shift(1)` is NaN). -/
theorem crossover_signal_rule (df : DF) (i : ℕ) :
    (∀ a b a2 b2 : ℚ,
      idx df.MA5 i = some a → idx df.MA20 i = some b →
      shiftIdx df.MA5 i = some a2 → shiftIdx df.MA20 i = some b2 →
      ((signalAt df i = 1 ↔ b < a ∧ a2 ≤ b2) ∧
        (signalAt df i = -1 ↔ a < b ∧ b2 ≤ a2))) ∧
    ((idx df.MA5 i = none ∨ idx df.MA20 i = none ∨ shiftIdx df.MA5 i = none ∨
        shiftIdx df.MA20 i = none) → signalAt df i = 0) := by
  constructor
  · intro a b a2 b2 ha hb ha2 hb2
    rw [signalAt, ha, hb, ha2, hb2, nanGt_some_some, nanLe_some_some, nanLt_some_some,
      nanGe_some_some]
    split_ifs with h1 h2
    · simp only [Bool.and_eq_true, decide_eq_true_eq] at h1
      have hnb : ¬(a < b) := lt_asymm h1.1
      constructor
      · simp [h1]
      · norm_num [hnb]
    · simp only [Bool.and_eq_true, decide_eq_true_eq] at h2
      have hna : ¬(b < a) := lt_asymm h2.1
      constructor
      · norm_num [hna]
      · simp [h2]
    · simp only [Bool.and_eq_true, decide_eq_true_eq, not_and_or, not_lt, not_le] at h1 h2
      constructor
      · constructor
        · intro habs
          norm_num at habs
        · intro habs
          rcases h1 with h | h
          · exact absurd habs.1 (not_lt_of_le h)
          · exact absurd habs.2 (not_le_of_lt h)
      · constructor
        · intro habs
          norm_num at habs
        · intro habs
          rcases h2 with h | h
          · exact absurd habs.1 (not_lt_of_le h)
          · exact absurd habs.2 (not_le_of_lt h)
  · rintro (h | h | h | h) <;> simp [signalAt, h]

/-- C6 witness: in the two-bar series `exDF` the golden cross fires at
bar 1 (MA5 rises from 1 to 3 across MA20 at 2) and bar 0, whose shifted
values are NaN, fires nothing. -/
theorem crossover_signal_rule_witness :
    signalAt exDF 1 = 1 ∧ signalAt exDF 0 = 0 :=
  ⟨(((crossover_signal_rule exDF 1).1 3 2 1 2 rfl rfl rfl rfl).1).mpr (by norm_num),
   (crossover_signal_rule exDF 0).2 (Or.inr (Or.inr (Or.inl rfl)))⟩

/-- C1 counterexample: in the two-bar series `exDF` a buy signal fires at
bar 1 while the state is Flat with cash 1 < price 28, `shares` computes to
`int(1 // 28) = 0` — and `trade_log.append` still runs (line 114 is
unconditional), so the log gains a Buy entry with 0 shares, where the claim
requires no entry at all. -/
theorem buy_unaffordable_logs_trade_cex :
    signalAt exDF 1 = 1 ∧
    ((bt_rows exDF).take 1).foldl bt_step ⟨1, 0, [], []⟩ = ⟨1, 0, [], [1]⟩ ∧
    (exDF.bars[1]?).map Bar.close = some 28 ∧ (1 : ℚ) < 28 ∧
    (run_backtest exDF 1).trades = [⟨1, Side.Buy, 28, 0⟩] := by
  have hfl : ⌊(1 : ℚ) / 28⌋ = 0 := floor_div_eq_zero 1 28 (by norm_num) (by norm_num) (by norm_num)
  have hs0 : signalAt exDF 0 = 0 := by
    simp [signalAt, shiftIdx]
  have hs1 : signalAt exDF 1 = 1 := by
    norm_num [signalAt, exDF, idx, shiftIdx]
  have hrows : bt_rows exDF = [(0, 5, 0), (1, 28, 1)] := by
    rw [bt_rows, show exDF.bars = [⟨0, 5, 5, 5, 5, 100⟩, ⟨1, 28, 28, 28, 28, 100⟩] from rfl]
    simp only [List.enum, List.enumFrom, List.map, zero_add]
    rw [hs0, hs1]
  refine ⟨hs1, ?_, rfl, by norm_num, ?_⟩
  · rw [hrows]
    simp only [List.take, List.foldl, bt_step]
    norm_num
  · show ((bt_rows exDF).foldl bt_step ⟨1, 0, [], []⟩).trade_log = [⟨1, Side.Buy, 28, 0⟩]
    rw [hrows]
    simp only [List.foldl, bt_step, hfl]
    norm_num

/-- C1 amended: on a buy signal in the Flat state with cash short of the
price, `shares` is computed as 0 and cash is unchanged — but a Buy trade
with `Shares = 0` IS appended to the trade log (the append is
unconditional), and the position stays 0, so the state remains Flat. -/
theorem buy_unaffordable_zero_shares (s : BTState) (d : ℕ) (p : ℚ)
    (hflat : s.position = 0) (hp : 0 < p) (hc : 0 ≤ s.cash) (hlt : s.cash < p) :
    (bt_step s (d, p, 1)).trade_log = s.trade_log ++ [⟨d, Side.Buy, p, 0⟩] ∧
    (bt_step s (d, p, 1)).position = 0 ∧
    (bt_step s (d, p, 1)).cash = s.cash := by
  have hfl : ⌊s.cash / p⌋ = 0 := floor_div_eq_zero s.cash p hc hp hlt
  rw [bt_step]
  rw [if_pos ⟨rfl, hflat⟩]
  refine ⟨?_, ?_, ?_⟩
  · show s.trade_log ++ [⟨d, Side.Buy, p, ⌊s.cash / p⌋⟩] = s.trade_log ++ [⟨d, Side.Buy, p, 0⟩]
    rw [hfl]
  · show ⌊s.cash / p⌋ = 0
    exact hfl
  · show s.cash - (⌊s.cash / p⌋ : ℚ) * p = s.cash
    rw [hfl]
    norm_num

/-- C1 amended witness: flat state with cash 1 facing price 28 — the step
appends a zero-share Buy and stays flat. -/
theorem buy_unaffordable_zero_shares_witness :
    (bt_step ⟨1, 0, [], []⟩ (0, 28, 1)).trade_log = [⟨0, Side.Buy, 28, 0⟩] ∧
    (bt_step ⟨1, 0, [], []⟩ (0, 28, 1)).position = 0 := by
  have h := buy_unaffordable_zero_shares ⟨1, 0, [], []⟩ 0 28 rfl (by norm_num) (by norm_num)
    (by norm_num)
  exact ⟨by rw [h.1]; rfl, h.2.1⟩

/-- C5: with positive prices and nonnegative initial capital, at every step
of the backtest loop (after any number `n` of iterations) cash and
position are nonnegative: the buy branch spends `floor(cash/price)*price`
which never exceeds cash, and the sell branch only adds. -/
theorem backtest_cash_position_nonneg (df : DF) (cap : ℚ) (n : ℕ)
    (hcap : 0 ≤ cap) (hpos : ∀ b ∈ df.bars, 0 < b.close) :
    0 ≤ (((bt_rows df).take n).foldl bt_step ⟨cap, 0, [], []⟩).cash ∧
    0 ≤ (((bt_rows df).take n).foldl bt_step ⟨cap, 0, [], []⟩).position := by
  have h : bt_inv (((bt_rows df).take n).foldl bt_step ⟨cap, 0, [], []⟩) := by
    apply bt_foldl_inv
    · intro r hr
      obtain ⟨b, hb, he⟩ := bt_rows_price df r (List.mem_of_mem_take hr)
      rw [he]
      exact hpos b hb
    · exact ⟨hcap, le_refl 0⟩
  exact h

/-- C5 witness: the two-bar series with capital 1, run to completion. -/
theorem backtest_cash_position_nonneg_witness :
    0 ≤ (((bt_rows exDF).take 2).foldl bt_step ⟨1, 0, [], []⟩).cash ∧
    0 ≤ (((bt_rows exDF).take 2).foldl bt_step ⟨1, 0, [], []⟩).position :=
  backtest_cash_position_nonneg exDF 1 2 (by norm_num)
    (by
      intro b hb
      simp only [exDF, List.mem_cons, List.not_mem_nil, or_false] at hb
      rcases hb with rfl | rfl <;> norm_num)

/-- C7 counterexample: the program computes the Fibonacci levels in
binary64, where `100 + (200-100)*0.786` evaluates to `178.60000000000002`,
strictly above the parsed double of `178.6` — so `close = 178.6` classifies
as "elevated", not "distribution/danger zone" as the claim requires. -/
theorem fib_boundary_float_cex :
    fibZone64 100 200 178.6 = FibZone.elevated ∧ FibZone.elevated ≠ FibZone.danger :=
  ⟨fib64_scenario.1, by decide⟩

/-- C7 amended: against the computed levels the four zones are
characterised exactly as the claim orders them (danger iff
`close ≥ level786`, elevated iff strictly between, accumulation iff
`close < level236`, neutral otherwise); but under the program's binary64
arithmetic the 78.6% level for low 100 / high 200 computes strictly above
178.6, so both scenario closes 178.6 and 178.5999 classify as
"elevated". -/
theorem fib_zone_characterization (c q786 q618 q236 : ℚ)
    (h1 : q236 ≤ q618) (h2 : q236 ≤ q786) :
    (fib_classify c q786 q618 q236 = FibZone.danger ↔ q786 ≤ c) ∧
    (fib_classify c q786 q618 q236 = FibZone.elevated ↔ q618 < c ∧ c < q786) ∧
    (fib_classify c q786 q618 q236 = FibZone.accumulation ↔ c < q236) ∧
    (fib_classify c q786 q618 q236 = FibZone.neutral ↔ q236 ≤ c ∧ c ≤ q618 ∧ c < q786) ∧
    fibZone64 100 200 178.6 = FibZone.elevated ∧
    fibZone64 100 200 178.5999 = FibZone.elevated := by
  refine ⟨?_, ?_, ?_, ?_, fib64_scenario.1, fib64_scenario.2⟩
  · unfold fib_classify
    split_ifs with ha hb hc <;> simp [ha]
  · unfold fib_classify
    split_ifs with ha hb hc
    · have h := not_lt.mpr ha
      simp [h]
    · simp [hb, not_le.mp ha]
    · simp [hb]
    · simp [hb]
  · unfold fib_classify
    split_ifs with ha hb hc
    · have h := not_lt.mpr (le_trans h2 ha)
      simp [h]
    · have h := not_lt.mpr (le_of_lt (lt_of_le_of_lt h1 hb))
      simp [h]
    · simp [hc]
    · simp [hc]
  · unfold fib_classify
    split_ifs with ha hb hc
    · simp [not_lt.mpr ha]
    · simp [not_le.mpr hb]
    · simp [not_le.mpr hc]
    · simp [not_lt.mp hc, not_lt.mp hb, not_le.mp ha]

/-- C7 amended witness: a close of 150 between the 23.6% and 61.8% levels
of the 100–200 range is neutral. -/
theorem fib_zone_characterization_witness :
    fib_classify 150 178.6 161.8 123.6 = FibZone.neutral :=
  ((fib_zone_characterization 150 178.6 161.8 123.6 (by norm_num) (by norm_num)).2.2.2.1).mpr
    ⟨by norm_num, by norm_num, by norm_num⟩

/-- C8: on a series of at least 21 bars, `avgVol20` is the mean of the last
20 volumes, the key candle is exactly the most recent bar among indices
`[N-20, N-2]` satisfying `close > open*1.03` and `volume > avgVol20*1.5`,
and wash-sale is flagged iff such a candle exists, the last close holds at
or above its low, and the last volume is below 60% of its volume (the
report then carries that candle's date and low, definitionally from
`key_candle`). -/
theorem wash_sale_characterization (bars : List Bar) (lastB : Bar)
    (hN : 21 ≤ bars.length) (hlast : bars.getLast? = some lastB) :
    (avg_vol_20 bars = some ((((bars.drop (bars.length - 20)).map Bar.volume).sum) / 20)) ∧
    (∀ k : Bar, key_candle bars = some k ↔
      ∃ i : ℕ, bars.length - 20 ≤ i ∧ i ≤ bars.length - 2 ∧ bars[i]? = some k ∧
        washCond ((((bars.drop (bars.length - 20)).map Bar.volume).sum) / 20) k ∧
        ∀ (j : ℕ) (b2 : Bar), i < j → j ≤ bars.length - 2 → bars[j]? = some b2 →
          ¬ washCond ((((bars.drop (bars.length - 20)).map Bar.volume).sum) / 20) b2) ∧
    (wash_detected bars = true ↔
      ∃ k : Bar, key_candle bars = some k ∧ k.low ≤ lastB.close ∧
        lastB.volume < k.volume * 0.6) ∧
    (∀ (df : DF) (high low : ℚ) (r : SignalReport), df.bars = bars →
      generate_signals df high low = some r →
      r.wash_detected = wash_detected bars ∧
      (wash_detected bars = true →
        r.wash_key_date = (key_candle bars).map Bar.date ∧
        r.wash_key_low = (key_candle bars).map Bar.low)) := by
  have havg : avg_vol_20 bars =
      some ((((bars.drop (bars.length - 20)).map Bar.volume).sum) / 20) :=
    avg_vol_20_eq bars (by omega)
  have hpred : ∀ b : Bar,
      bullish_pred bars b = true ↔
        washCond ((((bars.drop (bars.length - 20)).map Bar.volume).sum) / 20) b := by
    intro b
    rw [bullish_pred, havg]
    simp [washCond]
  refine ⟨havg, ?_, ?_, ?_⟩
  case refine_3 =>
    intro df high low r hdf hr
    rw [← hdf]
    exact generate_signals_wash_fields df high low r hr
  · intro k
    rw [key_candle, bullish_filter, filter_getLast?_eq_some_iff]
    constructor
    · rintro ⟨i, hik, hpk, hall⟩
      have hi19 : i < 19 ∧ bars[bars.length - 20 + i]? = some k := by
        rw [wash_slice_getElem? bars hN i] at hik
        by_cases h : i < 19
        · exact ⟨h, by rwa [if_pos h] at hik⟩
        · rw [if_neg h] at hik
          exact absurd hik (by simp)
      refine ⟨bars.length - 20 + i, by omega, by omega, hi19.2, (hpred k).mp hpk, ?_⟩
      intro j b2 hij hj2 hjb
      have hjs : (wash_slice bars)[j - (bars.length - 20)]? = some b2 := by
        rw [wash_slice_getElem? bars hN, if_pos (by omega),
          show bars.length - 20 + (j - (bars.length - 20)) = j from by omega]
        exact hjb
      have hfalse := hall (j - (bars.length - 20)) b2 (by omega) hjs
      intro hw
      have htrue := (hpred b2).mpr hw
      rw [hfalse] at htrue
      exact absurd htrue (by simp)
    · rintro ⟨i, h1, h2, hik, hwk, hall⟩
      refine ⟨i - (bars.length - 20), ?_, (hpred k).mpr hwk, ?_⟩
      · rw [wash_slice_getElem? bars hN, if_pos (by omega),
          show bars.length - 20 + (i - (bars.length - 20)) = i from by omega]
        exact hik
      · intro j b2 hij hjb
        have hj19 : j < 19 := by
          by_contra h
          rw [wash_slice_getElem? bars hN, if_neg (by omega)] at hjb
          exact absurd hjb (by simp)
        rw [wash_slice_getElem? bars hN, if_pos hj19] at hjb
        have hnw := hall (bars.length - 20 + j) b2 (by omega) (by omega) hjb
        rcases Bool.eq_false_or_eq_true (bullish_pred bars b2) with h | h
        · exact absurd ((hpred b2).mp h) hnw
        · exact h
  · have hwd : wash_detected bars = match key_candle bars, bars.getLast? with
        | some k, some lastB2 =>
          decide (k.low ≤ lastB2.close) && decide (lastB2.volume < k.volume * 0.6)
        | _, _ => false := rfl
    rcases hk : key_candle bars with - | k0
    · rw [hwd, hk, hlast]
      simp [hk]
    · rw [hwd, hk, hlast]
      simp only [Bool.and_eq_true, decide_eq_true_eq]
      constructor
      · intro h
        exact ⟨k0, rfl, h.1, h.2⟩
      · rintro ⟨k, hkk, h1, h2⟩
        have : k0 = k := by simpa using hkk
        rw [this]
        exact ⟨h1, h2⟩

/-- C8 witness: twenty-one identical bars satisfy the hypotheses; the
average volume over the trailing 20 bars is as characterised. -/
theorem wash_sale_characterization_witness :
    avg_vol_20 exWash =
      some ((((exWash.drop (exWash.length - 20)).map Bar.volume).sum) / 20) :=
  (wash_sale_characterization exWash ⟨0, 10, 10, 10, 10, 100⟩
    (by rw [exWash, List.length_replicate])
    (by rw [exWash, List.getLast?_replicate]; norm_num)).1

end StockApp
